import Mathlib

/-!
Shallow embedding of `src/App.jsx` of the `security-demo` repository.

The file embeds the pure computational core of the single-page application:

* the RSA lab arithmetic (`egcd`, `modInv`, `trialFactor` and the `compute`
  handler of the `RSALevel` component, lines 258-283 of `App.jsx`);
* the attack simulator (`simulateAttack` and its constant tables,
  lines 187-203);
* the client-side router (`stripBaseFromPath`, `parseWorkId` and the state
  transitions of `useWorkRoute` / `App`, lines 59-124 and 352-415);
* the elapsed-time formatter (`formatSciByLog10`, `formatSecondsByLog10`,
  lines 42-57), modelled over the real numbers.

JavaScript numbers in the RSA lab are used only at (small) integer values;
they are embedded as `Nat` for the user-supplied field values (the UI fields
parse to numerals) and as `Int` where the extended Euclidean algorithm
produces negative Bézout coefficients.  JavaScript `%` on integers is the
truncated remainder, embedded as `Int.tmod`; `Math.floor(a/b)` on
non-negative integers is `Nat` division.
-/

namespace SecurityDemo

/-! ### RSA lab: `egcd`, `modInv`, `trialFactor` (App.jsx lines 258-260) -/

/-- Result record of `egcd`: `{g, x, y}` with `g = gcd` and `x`, `y` the
Bézout coefficients. -/
structure EgcdResult where
  g : Nat
  x : Int
  y : Int
deriving Repr, DecidableEq

/-- `function egcd(a,b){ if(b===0) return {g:a,x:1,y:0};
const {g,x:y1,y:x1}=egcd(b,a%b); return {g,x:x1,y:y1-Math.floor(a/b)*x1}; }`
(App.jsx line 258).  The destructuring renames the callee's `x` to `y1` and
`y` to `x1`, so the returned record is `{g, x := r.y, y := r.x - (a/b)*r.y}`.
The function is only ever called with non-negative arguments (from `modInv`),
so the arguments are `Nat` while the coefficients are `Int`. -/
def egcd (a b : Nat) : EgcdResult :=
  if h : b = 0 then ⟨a, 1, 0⟩
  else
    let r := egcd b (a % b)
    ⟨r.g, r.y, r.x - ((a / b : Nat) : Int) * r.y⟩
termination_by b
decreasing_by exact Nat.mod_lt _ (Nat.pos_of_ne_zero h)

/-- `function modInv(a,m){ const {g,x}=egcd((a%m+m)%m,m); if(g!==1) return null;
return (x%m+m)%m; }` (App.jsx line 259).  For `m = 0` the JavaScript
expression `(a%m+m)%m` is `NaN`, `egcd(NaN,0).g` is `NaN`, the `g !== 1`
test succeeds and `null` is returned; the `m = 0` guard reproduces exactly
that outcome.  `x` is an integer, so the final normalisation uses the
truncated remainder `Int.tmod` (JavaScript `%`). -/
def modInv (a m : Nat) : Option Nat :=
  if m = 0 then none
  else
    let r := egcd ((a % m + m) % m) m
    if r.g = 1 then some (((r.x.tmod (m : Int) + (m : Int)).tmod (m : Int)).toNat)
    else none

/-- Loop body of `function trialFactor(n){ for(let i=2;i*i<=n;i++){
if(n%i===0) return [i,n/i]; } return null; }` (App.jsx line 260),
parameterised by the loop counter `i`. -/
def trialFactorAux (n i : Nat) : Option (Nat × Nat) :=
  if h1 : i * i ≤ n then
    if h2 : n % i = 0 then some (i, n / i)
    else trialFactorAux n (i + 1)
  else none
termination_by n + 1 - i
decreasing_by
  have hin : i ≤ n := by
    rcases Nat.eq_zero_or_pos i with h0 | h0
    · omega
    · calc i = i * 1 := (Nat.mul_one i).symm
        _ ≤ i * i := Nat.mul_le_mul_left i h0
        _ ≤ n := h1
  omega

/-- `trialFactor(n)` starts its scan at `i = 2`. -/
def trialFactor (n : Nat) : Option (Nat × Nat) :=
  trialFactorAux n 2

/-! ### RSA lab: the `compute` handler (App.jsx lines 274-283)

The `RSALevel` component keeps the four key fields as strings; `compute`
parses them with `P=p?Number(p):null` and so on, where an empty field — and,
by JavaScript truthiness, a field holding `0` — behaves as absent.  The
embedding takes the parsed field values as `Option Nat` (`none` = empty
field) and `numTruthy` reproduces the JavaScript truthiness tests
(`P&&Q`, `!P||!Q||!N`): `none` and `some 0` are both falsy.

`const D=modInv(E, phi)` is called with `E = null` when the `e` field is
empty; JavaScript coerces `null` to `0` inside `modInv`'s `(a%m+m)%m`, which
the embedding reproduces with `e.getD 0`. -/

/-- JavaScript truthiness of a number-or-`null` value: `null` and `0` are
falsy. -/
def numTruthy : Option Nat → Bool
  | none => false
  | some v => decide (v ≠ 0)

/-- The record passed to `setOut({N,phi,D,P,Q})` on success. -/
structure RSAResult where
  N : Nat
  phi : Nat
  D : Option Nat
  P : Nat
  Q : Nat
deriving Repr, DecidableEq

/-- Outcome of `compute`: either the success record or the message of the
thrown-and-caught error (`setOut({error: err.message})`). -/
inductive ComputeOut where
  | ok (r : RSAResult)
  | error (message : String)
deriving Repr, DecidableEq

/-- The only error message `compute` can produce
(`throw new Error('p,q,n のいずれかが未確定です')`). -/
def missingKeyMaterialMsg : String := "p,q,n のいずれかが未確定です"

/-- The `compute` handler (App.jsx lines 274-283):
`let P=p?Number(p):null; let Q=q?Number(q):null; let N=n?Number(n):null;
const E=e?Number(e):null;
if(P&&Q) N=P*Q;
if((!P||!Q) && N){ const fac=trialFactor(N); if(fac){ P=fac[0]; Q=fac[1]; } }
if(!P||!Q||!N) throw new Error('p,q,n のいずれかが未確定です');
const phi=(P-1)*(Q-1); const D=modInv(E, phi); setOut({N,phi,D,P,Q});`
The thrown error is caught in the same function and stored as
`{error: err.message}`, hence the `ComputeOut.error` value.  `P` and `Q` are
truthy (hence `≥ 1`) when `phi` is computed, so `Nat` subtraction agrees
with JavaScript subtraction there. -/
def compute (p q n e : Option Nat) : ComputeOut :=
  let N1 : Option Nat := if numTruthy p && numTruthy q then some (p.getD 0 * q.getD 0) else n
  let PQ : Option Nat × Option Nat :=
    if (!numTruthy p || !numTruthy q) && numTruthy N1 then
      match trialFactor (N1.getD 0) with
      | some fac => (some fac.1, some fac.2)
      | none => (p, q)
    else (p, q)
  if !numTruthy PQ.1 || !numTruthy PQ.2 || !numTruthy N1 then
    ComputeOut.error missingKeyMaterialMsg
  else
    let phi := (PQ.1.getD 0 - 1) * (PQ.2.getD 0 - 1)
    ComputeOut.ok ⟨N1.getD 0, phi, modInv (e.getD 0) phi, PQ.1.getD 0, PQ.2.getD 0⟩

/-! ### Correctness of `egcd` and `modInv` -/

theorem egcd_g_eq_gcd (a b : Nat) : (egcd a b).g = Nat.gcd a b := by
  induction b using Nat.strong_induction_on generalizing a with
  | _ b ih =>
    rw [egcd]
    split
    · next hb => subst hb; simp
    · next hb =>
      have hlt : a % b < b := Nat.mod_lt _ (Nat.pos_of_ne_zero hb)
      show (egcd b (a % b)).g = Nat.gcd a b
      rw [ih (a % b) hlt b]
      exact (Nat.gcd_comm b (a % b)).trans ((Nat.gcd_rec b a).symm.trans (Nat.gcd_comm b a))

theorem egcd_bezout (a b : Nat) :
    (a : Int) * (egcd a b).x + (b : Int) * (egcd a b).y = ((egcd a b).g : Int) := by
  induction b using Nat.strong_induction_on generalizing a with
  | _ b ih =>
    rw [egcd]
    split
    · next hb => subst hb; simp
    · next hb =>
      have hlt : a % b < b := Nat.mod_lt _ (Nat.pos_of_ne_zero hb)
      have hrec := ih (a % b) hlt b
      show (a : Int) * (egcd b (a % b)).y +
          (b : Int) * ((egcd b (a % b)).x - ((a / b : Nat) : Int) * (egcd b (a % b)).y) =
          ((egcd b (a % b)).g : Int)
      have hdm : (b : Int) * ((a / b : Nat) : Int) + ((a % b : Nat) : Int) = (a : Int) := by
        exact_mod_cast Nat.div_add_mod a b
      linear_combination hrec - (egcd b (a % b)).y * hdm

/-- The truncated remainder of any integer by a positive `m` lies in `(-m, m)`. -/
theorem neg_lt_tmod (x : Int) {m : Int} (hm : 0 < m) : -m < x.tmod m := by
  rcases Int.le_or_lt 0 x with hx | hx
  · have h0 : 0 ≤ x.tmod m := Int.tmod_nonneg m hx
    omega
  · have h1 : (-x).tmod m < m := Int.tmod_lt_of_pos _ hm
    have h2 : (-x).tmod m = -(x.tmod m) := by
      rw [Int.tmod_def, Int.tmod_def, Int.neg_tdiv]
      ring
    omega

/-- The JavaScript non-negative normalisation `(x % m + m) % m` (with `%` the
truncated remainder) agrees with the Euclidean remainder for positive `m`. -/
theorem tmod_norm_eq_emod (x : Int) {m : Int} (hm : 0 < m) :
    (x.tmod m + m).tmod m = x % m := by
  have hub : x.tmod m < m := Int.tmod_lt_of_pos x hm
  have hlb : -m < x.tmod m := neg_lt_tmod x hm
  rw [Int.tmod_eq_emod (by omega) (by omega)]
  have h1 : (x.tmod m + m) % m = x.tmod m % m := by
    have h := Int.add_mul_emod_self_left (x.tmod m) m 1
    simpa using h
  rw [h1, Int.tmod_def]
  have h2 : x - m * x.tdiv m = x + m * (-x.tdiv m) := by ring
  rw [h2, Int.add_mul_emod_self_left]

theorem gcd_mod_left_eq (a m : Nat) : Nat.gcd (a % m) m = Nat.gcd a m :=
  (Nat.gcd_rec m a).symm.trans (Nat.gcd_comm m a)

theorem add_mod_norm (a m : Nat) : (a % m + m) % m = a % m := by
  rw [Nat.add_mod_right]
  exact Nat.mod_mod_of_dvd a dvd_rfl

/-- `modInv` rewritten by the gcd it actually computes. -/
theorem modInv_eq (a m : Nat) (hm : m ≠ 0) :
    modInv a m = if Nat.gcd a m = 1
      then some ((((egcd (a % m) m).x.tmod m + m).tmod m).toNat) else none := by
  rw [modInv]
  simp only [if_neg hm, add_mod_norm, egcd_g_eq_gcd, gcd_mod_left_eq]

theorem modInv_eq_none_iff {a m : Nat} (hm : m ≠ 0) :
    modInv a m = none ↔ Nat.gcd a m ≠ 1 := by
  rw [modInv_eq a m hm]
  by_cases h : Nat.gcd a m = 1 <;> simp [h]

theorem emod_eq_one_of_form {M t : Int} (hM : 1 < M) (k : Int) (h : t = 1 + M * k) :
    t % M = 1 := by
  subst h
  rw [Int.add_mul_emod_self_left]
  exact Int.emod_eq_of_lt (by omega) (by omega)

/-- When `gcd a m = 1` and `1 < m`, `modInv` produces a genuine inverse
below `m`. -/
theorem modInv_coprime {a m : Nat} (hm : 1 < m) (hg : Nat.gcd a m = 1) :
    ∃ d, modInv a m = some d ∧ d < m ∧ (a * d) % m = 1 := by
  have hm0 : m ≠ 0 := by omega
  have hmpos : (0 : Int) < (m : Int) := by exact_mod_cast Nat.pos_of_ne_zero hm0
  refine ⟨(((egcd (a % m) m).x % (m : Int))).toNat, ?_, ?_, ?_⟩
  · rw [modInv_eq a m hm0, if_pos hg, tmod_norm_eq_emod _ hmpos]
  · have h1 : (egcd (a % m) m).x % (m : Int) < m := Int.emod_lt_of_pos _ hmpos
    have h2 : 0 ≤ (egcd (a % m) m).x % (m : Int) := Int.emod_nonneg _ (by omega)
    omega
  · -- Transfer the Bézout identity through the normalisation.
    have hbez := egcd_bezout (a % m) m
    rw [egcd_g_eq_gcd, gcd_mod_left_eq, hg] at hbez
    set X := (egcd (a % m) m).x with hX
    set Y := (egcd (a % m) m).y with hY
    have h2 : 0 ≤ X % (m : Int) := Int.emod_nonneg _ (by omega)
    have hXdef : X % (m : Int) = X - (m : Int) * (X / (m : Int)) := Int.emod_def X (m : Int)
    have hAdef : (a : Int) = ((a % m : Nat) : Int) + (m : Int) * ((a : Int) / (m : Int)) := by
      have hcast : ((a % m : Nat) : Int) = (a : Int) % (m : Int) := by push_cast; ring
      rw [hcast, Int.emod_def]
      ring
    have hint : ((a : Int) * (X % (m : Int))) % (m : Int) = 1 := by
      refine emod_eq_one_of_form (by exact_mod_cast hm)
        (-Y - ((a % m : Nat) : Int) * (X / (m : Int)) + ((a : Int) / (m : Int)) * X
          - (m : Int) * (((a : Int) / (m : Int)) * (X / (m : Int)))) ?_
      calc (a : Int) * (X % (m : Int))
          = (((a % m : Nat) : Int) + (m : Int) * ((a : Int) / (m : Int)))
              * (X - (m : Int) * (X / (m : Int))) := by rw [← hXdef, ← hAdef]
        _ = ((a % m : Nat) : Int) * X
              + (m : Int) * (-(((a % m : Nat) : Int) * (X / (m : Int)))
                + ((a : Int) / (m : Int)) * X
                - (m : Int) * (((a : Int) / (m : Int)) * (X / (m : Int)))) := by ring
        _ = 1 + (m : Int) * (-Y - ((a % m : Nat) : Int) * (X / (m : Int))
                + ((a : Int) / (m : Int)) * X
                - (m : Int) * (((a : Int) / (m : Int)) * (X / (m : Int)))) := by
              linear_combination hbez
    have hcast2 : (((a * (X % (m : Int)).toNat) % m : Nat) : Int)
        = ((a : Int) * (X % (m : Int))) % (m : Int) := by
      push_cast [Int.toNat_of_nonneg h2]
      ring_nf
    have := hcast2.trans hint
    exact_mod_cast this

/-- **C1.** For all naturals `e` and `m` with `m > 1`: `modInv e m` returns a
value `d` with `0 ≤ d < m` and `(e * d) % m = 1` precisely when
`gcd e m = 1`, and returns `none` (no inverse) otherwise; in particular every
coprime pair `(e, φ(n))` satisfies the RSA round-trip
`(e * modInv e φ(n)) % φ(n) = 1`. -/
theorem C1_modInv_correct (e m : Nat) (hm : 1 < m) :
    ((∃ d, modInv e m = some d ∧ d < m ∧ (e * d) % m = 1) ↔ Nat.gcd e m = 1) ∧
    (Nat.gcd e m ≠ 1 → modInv e m = none) := by
  refine ⟨⟨?_, ?_⟩, ?_⟩
  · rintro ⟨d, hd, -, -⟩
    by_contra hg
    rw [(modInv_eq_none_iff (by omega)).mpr hg] at hd
    exact Option.noConfusion hd
  · intro hg
    exact modInv_coprime hm hg
  · intro hg
    exact (modInv_eq_none_iff (by omega)).mpr hg

/-- Witness for C1 at the L1 pair `e = 3`, `m = φ(391) = 352`. -/
theorem C1_modInv_correct_witness :
    1 < 352 ∧
    (((∃ d, modInv 3 352 = some d ∧ d < 352 ∧ (3 * d) % 352 = 1) ↔ Nat.gcd 3 352 = 1) ∧
     (Nat.gcd 3 352 ≠ 1 → modInv 3 352 = none)) :=
  ⟨by norm_num, C1_modInv_correct 3 352 (by norm_num)⟩

/-! ### Correctness of `trialFactor` -/

theorem trialFactorAux_none_spec (n : Nat) :
    ∀ i, trialFactorAux n i = none → ∀ j, i ≤ j → j * j ≤ n → n % j ≠ 0 := by
  intro i
  induction i using trialFactorAux.induct n with
  | case1 x hx1 hx2 =>
    intro h
    rw [trialFactorAux, dif_pos hx1, dif_pos hx2] at h
    exact Option.noConfusion h
  | case2 x hx1 hx2 ih =>
    intro h j hij hjj
    rw [trialFactorAux, dif_pos hx1, dif_neg hx2] at h
    rcases Nat.eq_or_lt_of_le hij with rfl | hlt
    · exact hx2
    · exact ih h j hlt hjj
  | case3 x hx1 =>
    intro _ j hij hjj
    have hmul : x * x ≤ j * j := Nat.mul_le_mul hij hij
    omega

theorem trialFactorAux_some_spec (n : Nat) :
    ∀ i p q, trialFactorAux n i = some (p, q) →
      i ≤ p ∧ p * p ≤ n ∧ n % p = 0 ∧ q = n / p ∧
      ∀ j, i ≤ j → j < p → n % j ≠ 0 := by
  intro i
  induction i using trialFactorAux.induct n with
  | case1 x hx1 hx2 =>
    intro p q h
    rw [trialFactorAux, dif_pos hx1, dif_pos hx2] at h
    simp only [Option.some.injEq, Prod.mk.injEq] at h
    obtain ⟨rfl, rfl⟩ := h
    exact ⟨Nat.le_refl x, hx1, hx2, rfl, fun j h1 h2 => by omega⟩
  | case2 x hx1 hx2 ih =>
    intro p q h
    rw [trialFactorAux, dif_pos hx1, dif_neg hx2] at h
    obtain ⟨hxp, hsq, hmod, hq, hmin⟩ := ih p q h
    refine ⟨by omega, hsq, hmod, hq, ?_⟩
    intro j hxj hjp
    rcases Nat.eq_or_lt_of_le hxj with rfl | hlt
    · exact hx2
    · exact hmin j hlt hjp
  | case3 x hx1 =>
    intro p q h
    rw [trialFactorAux, dif_neg hx1] at h
    exact Option.noConfusion h

/-- **C3.** For every natural `n`, `trialFactor n` scans candidates `i` from
`2` upward while `i * i ≤ n`: when it returns `some (p, q)`, `p` is the
smallest candidate divisor (`2 ≤ p`, `p ∣ n`, `p * p ≤ n`, minimal among all
candidates) and `q = n / p` with `p * q = n`; and it returns `none` exactly
when no candidate up to the root bound divides `n`.  (The claim restricts to
`n ≥ 2`; the statement holds for every `n`.) -/
theorem C3_trialFactor (n : Nat) :
    (∀ p q, trialFactor n = some (p, q) →
      2 ≤ p ∧ p ∣ n ∧ p * p ≤ n ∧ q = n / p ∧ p * q = n ∧
      ∀ j, 2 ≤ j → j * j ≤ n → j ∣ n → p ≤ j) ∧
    (trialFactor n = none ↔ ∀ i, 2 ≤ i → i * i ≤ n → ¬ i ∣ n) := by
  constructor
  · intro p q h
    obtain ⟨h2p, hsq, hmod, hq, hmin⟩ := trialFactorAux_some_spec n 2 p q h
    have hdvd : p ∣ n := Nat.dvd_of_mod_eq_zero hmod
    refine ⟨h2p, hdvd, hsq, hq, ?_, ?_⟩
    · rw [hq]
      exact Nat.mul_div_cancel' hdvd
    · intro j h2j hjj hjd
      by_contra hlt
      push_neg at hlt
      exact hmin j h2j hlt (Nat.mod_eq_zero_of_dvd hjd)
  · constructor
    · intro h i h2i hii hid
      exact trialFactorAux_none_spec n 2 h i h2i hii (Nat.mod_eq_zero_of_dvd hid)
    · intro h
      cases htf : trialFactor n with
      | none => rfl
      | some pq =>
        obtain ⟨p, q⟩ := pq
        have H := trialFactorAux_some_spec n 2 p q htf
        exact absurd (Nat.dvd_of_mod_eq_zero H.2.2.1) (h p H.1 H.2.1)

/-- Witness for C3 at `n = 667`: the L3 modulus factors as `23 × 29`. -/
theorem C3_trialFactor_witness :
    trialFactor 667 = some (23, 29) ∧ 23 ∣ 667 ∧ 29 = 667 / 23 ∧ 23 * 29 = 667 := by
  have h667 : trialFactor 667 = some (23, 29) := by
    simp [trialFactor, trialFactorAux]
  have H := (C3_trialFactor 667).1 23 29 h667
  exact ⟨h667, H.2.1, H.2.2.2.1, H.2.2.2.2.1⟩

/-! ### Behaviour of the `compute` handler -/

/-- Symbolic evaluation of `compute` when the `p` and `q` fields are both
given (truthy): `n` is recomputed as `p * q` whatever was typed in the `n`
field, trial factoring is skipped, and the run succeeds. -/
theorem compute_of_p_q (p q : Nat) (hp : p ≠ 0) (hq : q ≠ 0) (n e : Option Nat) :
    compute (some p) (some q) n e =
      ComputeOut.ok ⟨p * q, (p - 1) * (q - 1),
        modInv (e.getD 0) ((p - 1) * (q - 1)), p, q⟩ := by
  have hpq : p * q ≠ 0 := Nat.mul_ne_zero hp hq
  unfold compute
  simp [numTruthy, hp, hq, hpq]

/-- **C4.** Whenever both `p` and `q` are supplied (present and truthy), the
reported `n` equals `p * q` regardless of any supplied `n`; in particular the
L1 preset (`p = 17`, `q = 23`, `e = 3`) reports `n = 391`, `φ(n) = 352` and
`d = 235`. -/
theorem C4_pq_override (p q : Nat) (hp : p ≠ 0) (hq : q ≠ 0) (n e : Option Nat) :
    compute (some p) (some q) n e =
      ComputeOut.ok ⟨p * q, (p - 1) * (q - 1),
        modInv (e.getD 0) ((p - 1) * (q - 1)), p, q⟩ ∧
    compute (some 17) (some 23) none (some 3) =
      ComputeOut.ok ⟨391, 352, some 235, 17, 23⟩ := by
  refine ⟨compute_of_p_q p q hp hq n e, ?_⟩
  have hmi : modInv 3 352 = some 235 := by
    simp [modInv, egcd]
    rfl
  rw [compute_of_p_q 17 23 (by norm_num) (by norm_num)]
  norm_num [hmi]

/-- Witness for C4 at `p = 2`, `q = 3` with a conflicting supplied
`n = 100`, plus the L1 preset. -/
theorem C4_pq_override_witness :
    (2 : Nat) ≠ 0 ∧ (3 : Nat) ≠ 0 ∧
    (compute (some 2) (some 3) (some 100) none =
        ComputeOut.ok ⟨2 * 3, (2 - 1) * (3 - 1),
          modInv ((none : Option Nat).getD 0) ((2 - 1) * (3 - 1)), 2, 3⟩ ∧
      compute (some 17) (some 23) none (some 3) =
        ComputeOut.ok ⟨391, 352, some 235, 17, 23⟩) :=
  ⟨by norm_num, by norm_num,
    C4_pq_override 2 3 (by norm_num) (by norm_num) (some 100) none⟩

/-- **C2** (evaluation at the failing input).  For the L3 preset, only
`n = 667` and `e = 7` are given: trial factoring does resolve `p = 23`,
`q = 29` and `φ(n) = 616`, but `616 = 7 · 88`, so `gcd(7, 616) = 7 ≠ 1` and
`compute` reports `d` as `none`.  The final verification demanded by the
claim, `(7 * d) % 616 = 1`, is therefore impossible: the preset's public
exponent contradicts the level's own task of computing `d`. -/
theorem C2_L3_no_inverse :
    compute none none (some 667) (some 7) =
      ComputeOut.ok ⟨667, 616, none, 23, 29⟩ ∧
    Nat.gcd 7 616 = 7 ∧ 616 % 7 = 0 := by
  have htf : trialFactor 667 = some (23, 29) := by
    simp [trialFactor, trialFactorAux]
  have hmi : modInv 7 616 = none := by
    rw [modInv_eq_none_iff (by norm_num)]
    decide
  refine ⟨?_, by decide, by norm_num⟩
  unfold compute
  simp [numTruthy, htf, hmi]

/-- **C7.** `compute` has exactly one error outcome: any
`ComputeOut.error` carries the missing-key-material message, and on any
successful run the reported `d` is exactly `modInv e φ(n)`, which (for
`φ(n) ≠ 0`) is `none` exactly when `gcd(e, φ(n)) ≠ 1` — the non-invertible
case terminates normally with `n` and `φ(n)` reported and `d = none`. -/
theorem C7_error_handling (p q n e : Option Nat) :
    (∀ s, compute p q n e = ComputeOut.error s → s = missingKeyMaterialMsg) ∧
    (∀ r, compute p q n e = ComputeOut.ok r →
      r.D = modInv (e.getD 0) r.phi ∧
      (r.phi ≠ 0 → (r.D = none ↔ Nat.gcd (e.getD 0) r.phi ≠ 1))) := by
  constructor
  · intro s hs
    simp only [compute] at hs
    repeat' split at hs
    all_goals first
      | (injection hs with h; exact h.symm)
      | exact ComputeOut.noConfusion hs
  · intro r hr
    simp only [compute] at hr
    repeat' split at hr
    all_goals first
      | exact ComputeOut.noConfusion hr
      | (injection hr with h; subst h;
         exact ⟨rfl, fun hphi => modInv_eq_none_iff hphi⟩)

/-- Witness for C7: the empty form errors with the missing-key-material
message, and the L1 factors with the non-invertible `e = 2`
(`gcd(2, 352) = 2`) terminate normally with `d = none`. -/
theorem C7_error_handling_witness :
    missingKeyMaterialMsg = missingKeyMaterialMsg ∧ Nat.gcd 2 352 ≠ 1 := by
  have hmi : modInv 2 352 = none := by
    rw [modInv_eq_none_iff (by norm_num)]
    decide
  have hcomp : compute (some 17) (some 23) none (some 2) =
      ComputeOut.ok ⟨391, 352, none, 17, 23⟩ := by
    rw [compute_of_p_q 17 23 (by norm_num) (by norm_num)]
    norm_num [hmi]
  have h1 := (C7_error_handling none none none none).1 missingKeyMaterialMsg rfl
  have h2 := ((C7_error_handling (some 17) (some 23) none (some 2)).2
    ⟨391, 352, none, 17, 23⟩ hcomp).2 (by norm_num)
  exact ⟨h1, by simpa using h2⟩

/-- Counterexample to **C10** as stated: with `p = q = 2` resolved and `e`
missing, `φ(n) = 1`, `gcd(0, 1) = 1`, and `compute` reports `d = 0` — not
the claimed `d = none`. -/
theorem C10_counterexample :
    compute (some 2) (some 2) none none = ComputeOut.ok ⟨4, 1, some 0, 2, 2⟩ ∧
    Nat.gcd 0 ((2 - 1) * (2 - 1)) = 1 := by
  have hmi : modInv 0 1 = some 0 := by
    simp [modInv, egcd]
  constructor
  · rw [compute_of_p_q 2 2 (by norm_num) (by norm_num)]
    norm_num [hmi]
  · norm_num

/-- **C10 (amended).** When `p` and `q` are resolved (nonzero) and the `e`
field is empty, `compute` raises no error: `e` is treated as `0`, and
whenever `φ(n) = (p-1)(q-1) ≠ 1` (so that `gcd(0, φ(n)) = φ(n) ≠ 1`) the
run terminates normally with `n` and `φ(n)` reported and `d = none` — the
same public outcome as a genuinely non-invertible `e`. -/
theorem C10_missing_e (p q : Nat) (hp : p ≠ 0) (hq : q ≠ 0)
    (hphi : (p - 1) * (q - 1) ≠ 1) (n : Option Nat) :
    compute (some p) (some q) n none =
      ComputeOut.ok ⟨p * q, (p - 1) * (q - 1), none, p, q⟩ ∧
    modInv 0 ((p - 1) * (q - 1)) = none := by
  have hnone : modInv 0 ((p - 1) * (q - 1)) = none := by
    rcases Nat.eq_zero_or_pos ((p - 1) * (q - 1)) with h0 | h0
    · rw [h0]
      rfl
    · rw [modInv_eq_none_iff (by omega)]
      simpa using hphi
  constructor
  · rw [compute_of_p_q p q hp hq]
    simp [hnone]
  · exact hnone

/-- Witness for C10 (amended) at the L1 factors `p = 17`, `q = 23` with the
`e` field left empty. -/
theorem C10_missing_e_witness :
    (17 : Nat) ≠ 0 ∧ (23 : Nat) ≠ 0 ∧ (17 - 1) * (23 - 1) ≠ 1 ∧
    (compute (some 17) (some 23) none none =
        ComputeOut.ok ⟨17 * 23, (17 - 1) * (23 - 1), none, 17, 23⟩ ∧
      modInv 0 ((17 - 1) * (23 - 1)) = none) :=
  ⟨by norm_num, by norm_num, by norm_num,
    C10_missing_e 17 23 (by norm_num) (by norm_num) (by norm_num) none⟩

/-! ### Attack simulator (App.jsx lines 187-203)

The accounts' `vulns`/`controls` objects are embedded as Boolean-valued
functions on the closed flag sets actually used by the data, and the
methods' `exploits`/`blockedBy` string arrays as lists of those flags. -/

/-- Vulnerability flag keys occurring in `demoAccounts`/`attackMethods`. -/
inductive VulnFlag where
  | reused | weakPattern | phishable | exposedEmail
deriving DecidableEq, Repr

/-- Control flag keys occurring in `demoAccounts`/`attackMethods`. -/
inductive ControlFlag where
  | mfa | pm
deriving DecidableEq, Repr

structure Account where
  id : String
  label : String
  username : String
  password : String
  vulns : VulnFlag → Bool
  controls : ControlFlag → Bool

structure AttackMethod where
  key : String
  name : String
  description : String
  exploits : List VulnFlag
  blockedBy : List ControlFlag

/-- The `{success, reason}` object returned by `simulateAttack`. -/
structure AttackOutcome where
  success : Bool
  reason : String
deriving DecidableEq, Repr

def noMatchReason : String := "選んだ手法は、このアカウントの弱点に刺さりません。"

def blockedReason : String := "脆弱性はあったが、MFA等の対策で阻止されました。"

def successReason : String := "脆弱性に一致、かつ決定的な対策なし。不正ログイン成立。"

/-- `function simulateAttack(account, method){
const hitVuln = method.exploits.some(v=>account.vulns[v]);
if(!hitVuln) return {success:false, reason:'選んだ手法は…'};
if(method.blockedBy.some(b=>account.controls[b])) return {success:false, reason:'脆弱性はあったが…'};
return {success:true, reason:'脆弱性に一致…'}; }` (App.jsx lines 198-203). -/
def simulateAttack (account : Account) (method : AttackMethod) : AttackOutcome :=
  let hitVuln := method.exploits.any fun v => account.vulns v
  if !hitVuln then ⟨false, noMatchReason⟩
  else if method.blockedBy.any (fun b => account.controls b) then ⟨false, blockedReason⟩
  else ⟨true, successReason⟩

/-- `demoAccounts[0]` (App.jsx line 188). -/
def userA : Account where
  id := "userA"
  label := "Aさん（大学メール）"
  username := "u123456@univ.ac.jp"
  password := "Tennis2024"
  vulns := fun v => match v with
    | .reused => true | .weakPattern => true | .phishable => true | .exposedEmail => true
  controls := fun c => match c with
    | .mfa => false | .pm => false

/-- `demoAccounts[1]` (App.jsx line 189). -/
def userB : Account where
  id := "userB"
  label := "Bさん（クラブSNS）"
  username := "club_b"
  password := "Mar14rally!"
  vulns := fun v => match v with
    | .reused => false | .weakPattern => true | .phishable => true | .exposedEmail => false
  controls := fun c => match c with
    | .mfa => true | .pm => false

/-- `demoAccounts[2]` (App.jsx line 190). -/
def userC : Account where
  id := "userC"
  label := "Cさん（個人ブログ）"
  username := "c_blog"
  password := "V7t9-kp3Q-ax4M"
  vulns := fun v => match v with
    | .reused => false | .weakPattern => false | .phishable => false | .exposedEmail => true
  controls := fun c => match c with
    | .mfa => true | .pm => true

def demoAccounts : List Account := [userA, userB, userC]

/-- `attackMethods[0]`: 漏洩流用 (App.jsx line 193). -/
def leakMethod : AttackMethod where
  key := "leak"
  name := "漏洩流用"
  description := "既知の漏洩リストからID/パスを試す。コスト最小。"
  exploits := [.reused]
  blockedBy := [.mfa]

/-- `attackMethods[1]`: フィッシング (App.jsx line 194). -/
def phishMethod : AttackMethod where
  key := "phish"
  name := "フィッシング"
  description := "偽ログインで入力させる。急がせ/罰・報酬の心理を利用。"
  exploits := [.phishable]
  blockedBy := [.mfa]

/-- `attackMethods[2]`: 推測 (App.jsx line 195). -/
def guessMethod : AttackMethod where
  key := "guess"
  name := "推測（辞書/個人情報）"
  description := "趣味+年、誕生日、口癖など“人間らしさ”を推測。"
  exploits := [.weakPattern]
  blockedBy := []

/-- `attackMethods[3]`: ソーシャルエンジニアリング (App.jsx line 196). -/
def socialMethod : AttackMethod where
  key := "social"
  name := "ソーシャルエンジニアリング"
  description := "メール公開や在籍情報を足掛かりに再設定誘導。"
  exploits := [.exposedEmail]
  blockedBy := [.mfa]

def attackMethods : List AttackMethod := [leakMethod, phishMethod, guessMethod, socialMethod]

/-- **C5.** `simulateAttack` is the deterministic three-way decision of the
claim: failure with the no-matching-vulnerability reason when no exploited
flag is set on the account, failure with the blocked-by-a-control reason
when some blocking control is set, success otherwise; and on the demo data,
leak vs A succeeds, guess vs C fails with the no-match reason, and phish vs
B fails with the blocked reason. -/
theorem C5_simulateAttack (account : Account) (method : AttackMethod) :
    (simulateAttack account method =
      if ∃ v ∈ method.exploits, account.vulns v = true then
        (if ∃ b ∈ method.blockedBy, account.controls b = true then
          ⟨false, blockedReason⟩
        else ⟨true, successReason⟩)
      else ⟨false, noMatchReason⟩) ∧
    simulateAttack userA leakMethod = ⟨true, successReason⟩ ∧
    simulateAttack userC guessMethod = ⟨false, noMatchReason⟩ ∧
    simulateAttack userB phishMethod = ⟨false, blockedReason⟩ := by
  refine ⟨?_, rfl, rfl, rfl⟩
  by_cases hv : ∃ v ∈ method.exploits, account.vulns v = true
  · by_cases hb : ∃ b ∈ method.blockedBy, account.controls b = true
    · rw [if_pos hv, if_pos hb]
      have hva : (method.exploits.any fun v => account.vulns v) = true :=
        List.any_eq_true.mpr hv
      have hba : (method.blockedBy.any fun b => account.controls b) = true :=
        List.any_eq_true.mpr hb
      simp [simulateAttack, hva, hba]
    · rw [if_pos hv, if_neg hb]
      have hva : (method.exploits.any fun v => account.vulns v) = true :=
        List.any_eq_true.mpr hv
      have hba : (method.blockedBy.any fun b => account.controls b) = false := by
        rw [Bool.eq_false_iff]
        intro h
        exact hb (List.any_eq_true.mp h)
      simp [simulateAttack, hva, hba]
  · rw [if_neg hv]
    have hva : (method.exploits.any fun v => account.vulns v) = false := by
      rw [Bool.eq_false_iff]
      intro h
      exact hv (List.any_eq_true.mp h)
    simp [simulateAttack, hva]

/-! ### Client-side router (App.jsx lines 59-124, 328-350, 352-415)

JavaScript strings are embedded as `List Char`; the string operations used
by the router map to list operations: `endsWith "/"` is a check of the last
character, `slice(0,-1)` is `dropLast`, `startsWith` is `isPrefixOf`,
`slice(len)` is `drop len`, `replace(/^\/+/, "")` drops leading slash
characters, and `split("/")` is `splitOnSlash`. -/

abbrev JsStr := List Char

/-- `const WORK_KEYS = ["1", "2", "3"]` (line 59); `WORK_KEY_SET` is the
same collection viewed as a set, so membership tests use this list. -/
def WORK_KEYS : List JsStr := [['1'], ['2'], ['3']]

/-- `const DEFAULT_WORK_ID = "all"` (line 61). -/
def DEFAULT_WORK_ID : JsStr := ['a', 'l', 'l']

/-- `getNormalizedBasePath` (lines 63-68).  `import.meta.env.BASE_URL` is a
build-time value outside the source tree, so the base URL is a parameter;
`none` models the absent value defaulted by `?? "/"`. -/
def getNormalizedBasePath (baseUrl : Option JsStr) : JsStr :=
  let base := baseUrl.getD ['/']
  let withoutTrailingSlash := if base.getLast? = some '/' then base.dropLast else base
  if withoutTrailingSlash = [] then []
  else if withoutTrailingSlash.head? = some '/' then withoutTrailingSlash
  else '/' :: withoutTrailingSlash

/-- `pathname.replace(/^\/+/, "")`. -/
def dropLeadingSlashes (s : JsStr) : JsStr := s.dropWhile fun c => c == '/'

/-- `stripBaseFromPath` (lines 70-78). -/
def stripBaseFromPath (baseUrl : Option JsStr) (pathname : JsStr) : JsStr :=
  let normalizedBase := getNormalizedBasePath baseUrl
  if normalizedBase = [] then dropLeadingSlashes pathname
  else if normalizedBase.isPrefixOf pathname then
    dropLeadingSlashes (pathname.drop normalizedBase.length)
  else dropLeadingSlashes pathname

/-- `String.prototype.split` with separator `"/"`: `"".split("/")` is
`[""]` and a leading/trailing slash contributes an empty segment. -/
def splitOnSlash : JsStr → List JsStr
  | [] => [[]]
  | c :: rest =>
    if c = '/' then [] :: splitOnSlash rest
    else
      match splitOnSlash rest with
      | [] => [[c]]
      | seg :: segs => (c :: seg) :: segs

/-- `parseWorkId` (lines 80-87): `split("/").filter(Boolean)` keeps the
non-empty segments, and an absent first segment (`undefined`) is falsy, so
the empty filter result falls through to the default. -/
def parseWorkId (baseUrl : Option JsStr) (pathname : JsStr) : JsStr :=
  if pathname = [] then DEFAULT_WORK_ID
  else
    let remainder := stripBaseFromPath baseUrl pathname
    if remainder = [] then DEFAULT_WORK_ID
    else
      match (splitOnSlash remainder).filter (fun seg => !seg.isEmpty) with
      | [] => DEFAULT_WORK_ID
      | firstSegment :: _ =>
        if WORK_KEYS.contains firstSegment then firstSegment else DEFAULT_WORK_ID

/-- The two ways `useWorkRoute` (lines 96-124) updates its `workId` state:
a browser `popstate` event re-parses the new `window.location.pathname`,
and `navigate(nextId)` stores `nextId` normalised to the known key set
(`WORK_KEY_SET.has(nextId) ? nextId : DEFAULT_WORK_ID`). -/
inductive RouterEvent where
  | popstate (pathname : JsStr)
  | navigate (nextId : JsStr)

/-- One state update of `useWorkRoute`; the previous identifier is never
consulted. -/
def routerStep (baseUrl : Option JsStr) (_workId : JsStr) : RouterEvent → JsStr
  | .popstate pathname => parseWorkId baseUrl pathname
  | .navigate nextId =>
    if WORK_KEYS.contains nextId then nextId else DEFAULT_WORK_ID

/-- The router state after the initial derivation from
`window.location.pathname` followed by any sequence of events. -/
def routerRun (baseUrl : Option JsStr) (initialPathname : JsStr)
    (events : List RouterEvent) : JsStr :=
  events.foldl (routerStep baseUrl) (parseWorkId baseUrl initialPathname)

/-- The `id` fields of `WORK_SECTIONS` (lines 328-350). -/
def WORK_SECTION_IDS : List JsStr := [['1'], ['2'], ['3']]

/-- The not-found branch of `App` (lines 395-410) renders exactly when
`activeWorkId !== DEFAULT_WORK_ID && !activeWork` with
`activeWork = WORK_SECTIONS.find((work) => work.id === activeWorkId)`. -/
def notFoundViewShown (activeWorkId : JsStr) : Bool :=
  decide (activeWorkId ≠ DEFAULT_WORK_ID) &&
    (WORK_SECTION_IDS.find? fun id => id == activeWorkId).isNone

/-- `parseWorkId` only ever returns the show-all sentinel or a known key. -/
theorem parseWorkId_mem (baseUrl : Option JsStr) (pathname : JsStr) :
    parseWorkId baseUrl pathname = DEFAULT_WORK_ID ∨
      parseWorkId baseUrl pathname ∈ WORK_KEYS := by
  rw [parseWorkId]
  split
  · exact Or.inl rfl
  · dsimp only
    split
    · exact Or.inl rfl
    · split
      · exact Or.inl rfl
      · split
        · next hc => exact Or.inr (List.mem_of_elem_eq_true hc)
        · exact Or.inl rfl

/-- **C6.** `parseWorkId` strips the base prefix, takes the first non-empty
segment, and returns it exactly when it is one of `"1"`, `"2"`, `"3"`; the
empty path, the bare base path, and every unknown segment yield the
show-all sentinel `"all"` — never an error. -/
theorem C6_parseWorkId (baseUrl : Option JsStr) (pathname : JsStr) :
    (parseWorkId baseUrl pathname = DEFAULT_WORK_ID ∨
      parseWorkId baseUrl pathname ∈ WORK_KEYS) ∧
    (∀ firstSegment rest,
      (splitOnSlash (stripBaseFromPath baseUrl pathname)).filter
          (fun seg => !seg.isEmpty) = firstSegment :: rest →
      pathname ≠ [] →
      parseWorkId baseUrl pathname =
        if firstSegment ∈ WORK_KEYS then firstSegment else DEFAULT_WORK_ID) ∧
    (pathname = [] → parseWorkId baseUrl pathname = DEFAULT_WORK_ID) ∧
    parseWorkId none ['/'] = DEFAULT_WORK_ID ∧
    parseWorkId none ['/', '1'] = ['1'] ∧
    parseWorkId none ['/', '2'] = ['2'] ∧
    parseWorkId none ['/', '3'] = ['3'] ∧
    parseWorkId none ['/', '9'] = DEFAULT_WORK_ID ∧
    parseWorkId none ['/', 'x', '/', '1'] = DEFAULT_WORK_ID := by
  refine ⟨parseWorkId_mem baseUrl pathname, ?_, ?_, rfl, rfl, rfl, rfl, rfl, rfl⟩
  · intro firstSegment rest heq hne
    have hrem : stripBaseFromPath baseUrl pathname ≠ [] := by
      intro h
      rw [h] at heq
      simp [splitOnSlash] at heq
    rw [parseWorkId, if_neg hne]
    simp only [if_neg hrem]
    rw [heq]
    by_cases hm : firstSegment ∈ WORK_KEYS
    · rw [if_pos hm]
      show (if WORK_KEYS.contains firstSegment then firstSegment else DEFAULT_WORK_ID)
          = firstSegment
      rw [if_pos (List.elem_eq_true_of_mem hm)]
    · rw [if_neg hm]
      show (if WORK_KEYS.contains firstSegment then firstSegment else DEFAULT_WORK_ID)
          = DEFAULT_WORK_ID
      rw [if_neg ?_]
      intro hc
      exact hm (List.mem_of_elem_eq_true hc)
  · intro h
    simp [parseWorkId, h]

/-- Witness for C6: the path `"/2"` routes to the widget view `"2"`. -/
theorem C6_parseWorkId_witness : parseWorkId none ['/', '2'] = ['2'] := by
  have h := (C6_parseWorkId none ['/', '2']).2.1 ['2'] [] rfl (by simp)
  simpa using h

/-- **C9.** Invariant: every identifier the router state can hold — after
the initial derivation and any sequence of popstate and navigate events —
lies in `{"all", "1", "2", "3"}`, so the not-found branch of `App` never
renders from router-driven state. -/
theorem C9_router_invariant (baseUrl : Option JsStr) (initialPathname : JsStr)
    (events : List RouterEvent) :
    (routerRun baseUrl initialPathname events = DEFAULT_WORK_ID ∨
      routerRun baseUrl initialPathname events ∈ WORK_KEYS) ∧
    notFoundViewShown (routerRun baseUrl initialPathname events) = false := by
  have hstep : ∀ (w : JsStr) (ev : RouterEvent),
      routerStep baseUrl w ev = DEFAULT_WORK_ID ∨
        routerStep baseUrl w ev ∈ WORK_KEYS := by
    intro w ev
    cases ev with
    | popstate p => exact parseWorkId_mem baseUrl p
    | navigate nextId =>
      simp only [routerStep]
      split
      · next hc => exact Or.inr (List.mem_of_elem_eq_true hc)
      · exact Or.inl rfl
  have hinv : ∀ (evs : List RouterEvent) (w : JsStr),
      (w = DEFAULT_WORK_ID ∨ w ∈ WORK_KEYS) →
      (evs.foldl (routerStep baseUrl) w = DEFAULT_WORK_ID ∨
        evs.foldl (routerStep baseUrl) w ∈ WORK_KEYS) := by
    intro evs
    induction evs with
    | nil => intro w hw; exact hw
    | cons ev evs ih => intro w _; exact ih _ (hstep w ev)
  have hmem : routerRun baseUrl initialPathname events = DEFAULT_WORK_ID ∨
      routerRun baseUrl initialPathname events ∈ WORK_KEYS :=
    hinv events _ (parseWorkId_mem baseUrl initialPathname)
  refine ⟨hmem, ?_⟩
  rcases hmem with h | h
  · rw [h]
    rfl
  · simp only [WORK_KEYS, List.mem_cons, List.not_mem_nil, or_false] at h
    rcases h with h | h | h <;> rw [h] <;> rfl

/-! ### Elapsed-time formatting (App.jsx lines 42-57)

`formatSciByLog10` and `formatSecondsByLog10` operate on JavaScript
floating-point numbers; the embedding idealises them over the real numbers
(exact log-space arithmetic, no `toFixed` rounding), keeping the branch
structure and the unit conversions of the source.  The rendered string is
abstracted as the branch taken together with the numeric payload the branch
formats. -/

/-- `formatSciByLog10(log10N)` (lines 42-46) as the pair (mantissa,
exponent) of the rendered string: `e = Math.floor(log10N)` and
`mant = Math.pow(10, log10N - e)`. -/
noncomputable def formatSciByLog10 (log10N : ℝ) : ℝ × ℤ :=
  ((10 : ℝ) ^ (log10N - (⌊log10N⌋ : ℝ)), ⌊log10N⌋)

/-- The unit branch selected by `formatSecondsByLog10`, with the numeric
payload the branch renders. -/
inductive TimeDisplay where
  | sciSeconds (mant : ℝ) (e : ℤ)
  | seconds (value : ℝ)
  | minutes (value : ℝ)
  | hours (value : ℝ)
  | days (value : ℝ)
  | years (value : ℝ)
  | trillionYears (value : ℝ)
  | sciYears (value : ℝ)

/-- `formatSecondsByLog10(log10Sec)` (lines 47-57).  The source guard is
`!isFinite(sec) || log10Sec > 20`; over the reals `sec = 10 ^ log10Sec` is
always finite (`isFinite` only fails on floating-point overflow, which
needs `log10Sec > 308 > 20`), so only the `log10Sec > 20` test remains. -/
noncomputable def formatSecondsByLog10 (log10Sec : ℝ) : TimeDisplay :=
  let sec := (10 : ℝ) ^ log10Sec
  if 20 < log10Sec then
    .sciSeconds (formatSciByLog10 log10Sec).1 (formatSciByLog10 log10Sec).2
  else if sec < 60 then .seconds sec
  else
    let min := sec / 60
    if min < 60 then .minutes min
    else
      let hr := min / 60
      if hr < 48 then .hours hr
      else
        let d := hr / 24
        if d < 365 * 2 then .days d
        else
          let y := d / 365
          if y < 10000 then .years y
          else
            let ty := y / 1000000000000
            if 1 ≤ ty then .trillionYears ty
            else .sciYears y

/-- The elapsed time in seconds represented by a rendered display value:
each branch's payload multiplied by its unit (`分` = 60 s, `時間` = 3600 s,
`日` = 86400 s, `年` = 365 days, `兆年` = 10¹² years, and
`mant × 10^e` seconds for the scientific fallback). -/
noncomputable def TimeDisplay.toSeconds : TimeDisplay → ℝ
  | .sciSeconds mant e => mant * (10 : ℝ) ^ e
  | .seconds v => v
  | .minutes v => v * 60
  | .hours v => v * (60 * 60)
  | .days v => v * (60 * 60 * 24)
  | .years v => v * (60 * 60 * 24 * 365)
  | .trillionYears v => v * 1000000000000 * (60 * 60 * 24 * 365)
  | .sciYears v => v * (60 * 60 * 24 * 365)

/-- Every branch of `formatSecondsByLog10` renders exactly the duration
`10 ^ log10Sec` seconds: the unit conversions lose nothing. -/
theorem toSeconds_formatSecondsByLog10 (x : ℝ) :
    (formatSecondsByLog10 x).toSeconds = (10 : ℝ) ^ x := by
  rw [formatSecondsByLog10]
  simp only [formatSciByLog10]
  split_ifs
  · show (10 : ℝ) ^ (x - (⌊x⌋ : ℝ)) * (10 : ℝ) ^ ⌊x⌋ = (10 : ℝ) ^ x
    rw [← Real.rpow_intCast 10 ⌊x⌋, ← Real.rpow_add (by norm_num : (0 : ℝ) < 10)]
    congr 1
    ring
  · rfl
  · show (10 : ℝ) ^ x / 60 * 60 = (10 : ℝ) ^ x
    field_simp
  · show (10 : ℝ) ^ x / 60 / 60 * (60 * 60) = (10 : ℝ) ^ x
    field_simp
  · show (10 : ℝ) ^ x / 60 / 60 / 24 * (60 * 60 * 24) = (10 : ℝ) ^ x
    field_simp
  · show (10 : ℝ) ^ x / 60 / 60 / 24 / 365 * (60 * 60 * 24 * 365) = (10 : ℝ) ^ x
    field_simp
  · show (10 : ℝ) ^ x / 60 / 60 / 24 / 365 / 1000000000000 * 1000000000000
        * (60 * 60 * 24 * 365) = (10 : ℝ) ^ x
    field_simp
    ring
  · show (10 : ℝ) ^ x / 60 / 60 / 24 / 365 * (60 * 60 * 24 * 365) = (10 : ℝ) ^ x
    field_simp

/-- **C8.** Elapsed-time formatting is monotonic: at any fixed guess rate,
if `log10(combinations)` grows, the elapsed time represented by
`formatSecondsByLog10 (log10Comb - log10Rate)` never decreases — across
every unit branch — so neither does its order of magnitude. -/
theorem C8_time_monotone (log10Rate x1 x2 : ℝ) (h : x1 ≤ x2) :
    (formatSecondsByLog10 (x1 - log10Rate)).toSeconds ≤
      (formatSecondsByLog10 (x2 - log10Rate)).toSeconds := by
  rw [toSeconds_formatSecondsByLog10, toSeconds_formatSecondsByLog10]
  exact (Real.rpow_le_rpow_left_iff (by norm_num : (1 : ℝ) < 10)).mpr (by linarith)

/-- Witness for C8 at the 10⁷ guesses/second rate with
`log10(combinations)` growing from `0` to `1`. -/
theorem C8_time_monotone_witness :
    (0 : ℝ) ≤ 1 ∧
    (formatSecondsByLog10 ((0 : ℝ) - 7)).toSeconds ≤
      (formatSecondsByLog10 ((1 : ℝ) - 7)).toSeconds :=
  ⟨by norm_num, C8_time_monotone 7 0 1 (by norm_num)⟩

end SecurityDemo
